import Mathlib

/-!
Shallow embedding of the Number_Neural_Network repository (Go, gonum-based
feedforward network).  Matrices (`gonum/mat.Dense`) are row-major lists of
64-bit floats, modelled over `ℝ`.  Methods with a value receiver receive a
copy of the `Network` struct; the two weight fields are pointers to `Dense`
values on a heap, which we model explicitly where pointer behaviour matters
(`Train`, `Predict` call semantics).  No matrix helper of the repository
writes through an existing pointer: each builds a fresh `mat.NewDense` and
writes only into it, so the only heap-model operation is allocation
(append); in-place `Reset`/`UnmarshalBinaryFrom` mutation occurs only in
`load`, modelled functionally.
-/

namespace NNN

noncomputable section

/-- A `gonum/mat.Dense`: row count, column count, row-major data. -/
structure GMat where
  rows : Nat
  cols : Nat
  data : List ℝ

/-- Entry access `m.At(i, j)`: row-major access `data[i*cols+j]`. -/
def GMat.At (m : GMat) (i j : Nat) : ℝ := m.data.getD (i * m.cols + j) 0

/-- Transpose `m.T()`. -/
def transpose (m : GMat) : GMat :=
  ⟨m.cols, m.rows,
    (List.range m.cols).flatMap fun i => (List.range m.rows).map fun j => m.At j i⟩

/-- Helper `dot(m, n)`: `o := NewDense(r, c, nil); o.Product(m, n)` with
`r, _ := m.Dims()` and `_, c := n.Dims()` (source lines 52-58). -/
def dot (m n : GMat) : GMat :=
  ⟨m.rows, n.cols,
    (List.range m.rows).flatMap fun i =>
      (List.range n.cols).map fun j =>
        ((List.range m.cols).map fun k => m.At i k * n.At k j).sum⟩

/-- Helper `apply(fn, m)`: `o.Apply(fn, m)` — `fn(i, j, v)` at every cell
(source lines 60-65). -/
def apply (fn : Nat → Nat → ℝ → ℝ) (m : GMat) : GMat :=
  ⟨m.rows, m.cols,
    (List.range (m.rows * m.cols)).map fun k =>
      fn (k / m.cols) (k % m.cols) (m.data.getD k 0)⟩

/-- Helper `scale(s, m)`: `o.Scale(s, m)` (source lines 67-72). -/
def scale (s : ℝ) (m : GMat) : GMat :=
  ⟨m.rows, m.cols, m.data.map fun v => s * v⟩

/-- Helper `multiply(m, n)`: elementwise `o.MulElem(m, n)` (source lines 74-79). -/
def multiply (m n : GMat) : GMat :=
  ⟨m.rows, m.cols, List.zipWith (fun a b => a * b) m.data n.data⟩

/-- Helper `add(m, n)`: `o.Add(m, n)` (source lines 81-86). -/
def add (m n : GMat) : GMat :=
  ⟨m.rows, m.cols, List.zipWith (fun a b => a + b) m.data n.data⟩

/-- Helper `subtract(m, n)`: `o.Sub(m, n)` (source lines 98-103). -/
def subtract (m n : GMat) : GMat :=
  ⟨m.rows, m.cols, List.zipWith (fun a b => a - b) m.data n.data⟩

/-- Activation `sigmoid(r, c, z) = 1.0 / (1 + math.Exp(-1*z))` (source lines 119-121). -/
def sigmoid (r c : Nat) (z : ℝ) : ℝ := 1 / (1 + Real.exp (-1 * z))

/-- Helper `sigmoidPrime(m)`: builds a `rows × 1` matrix of ones and returns
`multiply(m, subtract(ones, m))` (source lines 123-131). -/
def sigmoidPrime (m : GMat) : GMat :=
  multiply m (subtract ⟨m.rows, 1, List.replicate m.rows 1⟩ m)

/-- Draw `distuv.Uniform\x7bMin, Max\x7d.Rand()` returns `rnd*(Max-Min) + Min` where
`rnd` is the next float64 of the source in `[0, 1)`. -/
def uniformRand (lo hi u : ℝ) : ℝ := u * (hi - lo) + lo

/-- Initializer `randomArray(size, v)` (source lines 106-117): `size` independent draws
from `Uniform{Min: -1/Sqrt(v), Max: 1/Sqrt(v)}`; the random source is made
explicit as the stream `src` of successive float64 draws in `[0, 1)`. -/
def randomArray (size : Nat) (v : ℝ) (src : Nat → ℝ) : List ℝ :=
  (List.range size).map fun i =>
    uniformRand (-1 / Real.sqrt v) (1 / Real.sqrt v) (src i)

/-- The `Network` struct (source lines 17-24); the two weight fields hold the
pointed-to `Dense` values. -/
structure Network where
  inputs : Nat
  hiddens : Nat
  outputs : Nat
  hiddenWeights : GMat
  outputWeights : GMat
  learningRate : ℝ

/-- Constructor `NewNetwork` (source lines 26-37): `hiddenWeights :=
NewDense(hiddens, inputs, randomArray(inputs*hiddens, float64(inputs)))`,
`outputWeights := NewDense(outputs, hiddens, randomArray(outputs*hiddens,
float64(hiddens)))`; the second call consumes the draws following those of the first. -/
def NewNetwork (inputs hiddens outputs : Nat) (rate : ℝ) (src : Nat → ℝ) :
    Network where
  inputs := inputs
  hiddens := hiddens
  outputs := outputs
  hiddenWeights :=
    ⟨hiddens, inputs, randomArray (inputs * hiddens) (inputs : ℝ) src⟩
  outputWeights :=
    ⟨outputs, hiddens, randomArray (outputs * hiddens) (hiddens : ℝ)
      (fun i => src (inputs * hiddens + i))⟩
  learningRate := rate

/-- Method `Predict` (source lines 39-46): forward pass on the value receiver. -/
def Predict (net : Network) (inputData : List ℝ) : GMat :=
  apply sigmoid
    (dot net.outputWeights
      (apply sigmoid (dot net.hiddenWeights ⟨inputData.length, 1, inputData⟩)))

/-- The body of `Train` (source lines 133-147): the state of the receiver
copy when the method returns.  `hiddenErrors` uses the pre-update
`outputWeights`; both new weight matrices are fresh allocations bound to the
pointer fields of the copy. -/
def TrainBody (net : Network) (inputData targetData : List ℝ) : Network :=
  let input : GMat := ⟨inputData.length, 1, inputData⟩
  let hiddenOutputs := apply sigmoid (dot net.hiddenWeights input)
  let finalOutputs := apply sigmoid (dot net.outputWeights hiddenOutputs)
  let outputErrors := subtract ⟨targetData.length, 1, targetData⟩ finalOutputs
  let hiddenErrors := dot (transpose net.outputWeights) outputErrors
  { net with
    outputWeights := add net.outputWeights (scale net.learningRate
      (dot (multiply outputErrors (sigmoidPrime finalOutputs))
        (transpose hiddenOutputs)))
    hiddenWeights := add net.hiddenWeights (scale net.learningRate
      (dot (multiply hiddenErrors (sigmoidPrime hiddenOutputs))
        (transpose input))) }

/-- Heap of allocated `Dense` values; a pointer is an index. -/
abbrev Heap := List GMat

/-- Dereference a pointer (a dangling pointer reads an empty matrix). -/
def Heap.deref (h : Heap) (a : Nat) : GMat := h.getD a ⟨0, 0, []⟩

/-- Allocation by `mat.NewDense`: append, returning the fresh address. -/
def Heap.alloc (h : Heap) (m : GMat) : Heap × Nat := (h ++ [m], h.length)

/-- The `Network` struct as held by a caller: the weight fields are pointers
into the heap. -/
structure NetRef where
  inputs : Nat
  hiddens : Nat
  outputs : Nat
  hiddenWeights : Nat
  outputWeights : Nat
  learningRate : ℝ

/-- The `Network` value a struct denotes once its weight pointers are
dereferenced. -/
def NetRef.read (h : Heap) (net : NetRef) : Network :=
  ⟨net.inputs, net.hiddens, net.outputs, h.deref net.hiddenWeights,
    h.deref net.outputWeights, net.learningRate⟩

/-- Execution of the `Train` body against the heap: the two updated matrices are
fresh allocations (every helper writes only a fresh `NewDense`); the returned
struct is the receiver copy with its pointer fields rebound.  Intermediate
allocations that the copy drops are elided — they are unreachable and
unobservable. -/
def TrainGo (h : Heap) (net : NetRef) (inputData targetData : List ℝ) :
    Heap × NetRef :=
  let netV := TrainBody (NetRef.read h net) inputData targetData
  let p1 := h.alloc netV.outputWeights
  let p2 := p1.1.alloc netV.hiddenWeights
  (p2.1, { net with outputWeights := p1.2, hiddenWeights := p2.2 })

/-- Call semantics of `net.Train(input, target)` at a call site: `Train` has a VALUE receiver
(`func (net Network) Train`, source line 133), so the callee operates on a
copy of the struct and the copy is discarded at return; the variable at the call site keeps its
value unchanged, sharing only the heap effects. -/
def TrainCall (h : Heap) (net : NetRef) (inputData targetData : List ℝ) :
    Heap × NetRef :=
  ((TrainGo h net inputData targetData).1, net)

/-- Call semantics of `net.Predict(input)` at a call site: value receiver, result is a fresh
allocation whose address is returned (source lines 39-46). -/
def PredictGo (h : Heap) (net : NetRef) (inputData : List ℝ) : Heap × Nat :=
  h.alloc (Predict (NetRef.read h net) inputData)

/-- The stream written by `Dense.MarshalBinaryTo`: a self-describing header
(version, row count, column count) followed by the row-major float64 payload.
Shapes come only from this header. -/
structure MBin where
  rows : Nat
  cols : Nat
  data : List ℝ

/-- Marshalling `Dense.MarshalBinaryTo` as the stream contents it writes. -/
def MarshalBinary (m : GMat) : MBin := ⟨m.rows, m.cols, m.data⟩

/-- Unmarshalling `Dense.UnmarshalBinaryFrom` on a receiver just emptied by `Reset()`: the
receiver adopts the stored row/column counts and payload.  The configured
sizes of the network are never consulted. -/
def UnmarshalBinary (b : MBin) : GMat := ⟨b.rows, b.cols, b.data⟩

/-- Outcome of opening and fully reading one weight file, as `load` sees it:
the open (`os.Open`) can fail, the read/decode (`UnmarshalBinaryFrom`) can
fail, or a well-formed marshalled matrix is obtained.  Errors carry an opaque
code that `load` propagates.  A read failure happens after `Reset()`, at the
header stage, so it leaves the receiver emptied (a mid-payload failure also
leaves it differing from its pre-call contents). -/
inductive FileRes where
  | openFail (code : Nat)
  | readFail (code : Nat)
  | good (b : MBin)

/-- Method `save` (source lines 149-170): on the success path the two files receive
the marshalled hidden and output weight matrices, in that order. -/
def save (net : Network) : MBin × MBin :=
  (MarshalBinary net.hiddenWeights, MarshalBinary net.outputWeights)

/-- Method `load` (source lines 172-195): open hidden file (error returns with
nothing yet touched); `Reset()` then unmarshal into `hiddenWeights` (error
returns with `hiddenWeights` emptied); open output file (error returns with
`hiddenWeights` already replaced, `outputWeights` untouched); `Reset()` then
unmarshal into `outputWeights`.  Result is the network state seen through the
pointer receiver at the call site, paired with the returned error. -/
def load (net : Network) (f1 f2 : FileRes) : Network × Option Nat :=
  match f1 with
  | .openFail e => (net, some e)
  | .readFail e => ({ net with hiddenWeights := ⟨0, 0, []⟩ }, some e)
  | .good b1 =>
    let net1 := { net with hiddenWeights := UnmarshalBinary b1 }
    match f2 with
    | .openFail e => (net1, some e)
    | .readFail e => ({ net1 with outputWeights := ⟨0, 0, []⟩ }, some e)
    | .good b2 => ({ net1 with outputWeights := UnmarshalBinary b2 }, none)

/-- Driver scaling of a raw record field (source line 218, also line 257):
`(x / 0.99 * 255.0) + 0.01`. -/
def mnistScale (x : ℝ) : ℝ := x / 0.99 * 255.0 + 0.01

/-- Driver target vector (source lines 220-225): `outputs` cells of `0.01`,
then `targets[x] = 0.99` for the class label `x`. -/
def mnistTargets (outputs : Nat) (x : Nat) : List ℝ :=
  (List.replicate outputs 0.01).set x 0.99

/-- Shape consistency of the weight matrices with the three size fields
(spec section 3 invariant). -/
def ShapeOK (net : Network) : Prop :=
  net.hiddenWeights.rows = net.hiddens ∧ net.hiddenWeights.cols = net.inputs ∧
  net.outputWeights.rows = net.outputs ∧ net.outputWeights.cols = net.hiddens

/-- Modelled from the spec (section 4.4): `sigmoid(z) = 1 / (1 + e^-z)`. -/
def sigmoidSpec (z : ℝ) : ℝ := 1 / (1 + Real.exp (-z))

/-- Modelled from the spec: elementwise sigmoid of a matrix. -/
def sigmoidMapSpec (m : GMat) : GMat := ⟨m.rows, m.cols, m.data.map sigmoidSpec⟩

/-- Modelled from the spec (section 4.4): `hidden = sigmoid(hiddenWeights ·
input)`; `output = sigmoid(outputWeights · hidden)` with the input as an
`inputSize × 1` column. -/
def PredictSpec (net : Network) (inputData : List ℝ) : GMat :=
  sigmoidMapSpec
    (dot net.outputWeights
      (sigmoidMapSpec (dot net.hiddenWeights ⟨inputData.length, 1, inputData⟩)))

/-- The training update claimed by the spec (sections 4.5-4.6): after
`Train(input, target)` the network at the call site should hold `outputWeights +
learningRate * ((target - output) o output o (1 - output)) * hiddenT` and
`hiddenWeights + learningRate * ((outputWeightsT * (target - output)) o
hidden o (1 - hidden)) * inputT`, `hidden` and `output` being the forward
activations and the hidden error using the pre-update output weights. -/
def TrainSpec (net : Network) (inputData targetData : List ℝ) : Network :=
  let input : GMat := ⟨inputData.length, 1, inputData⟩
  let hidden := sigmoidMapSpec (dot net.hiddenWeights input)
  let output := sigmoidMapSpec (dot net.outputWeights hidden)
  let outputError := subtract ⟨targetData.length, 1, targetData⟩ output
  let hiddenError := dot (transpose net.outputWeights) outputError
  let onesO : GMat := ⟨output.rows, 1, List.replicate output.rows 1⟩
  let onesH : GMat := ⟨hidden.rows, 1, List.replicate hidden.rows 1⟩
  { net with
    outputWeights := add net.outputWeights (scale net.learningRate
      (dot (multiply (multiply outputError output) (subtract onesO output))
        (transpose hidden)))
    hiddenWeights := add net.hiddenWeights (scale net.learningRate
      (dot (multiply (multiply hiddenError hidden) (subtract onesH hidden))
        (transpose input))) }

/-- A concrete `1-1-1` network with nonzero weights, used as test subject. -/
def netSmall : Network := ⟨1, 1, 1, ⟨1, 1, [3]⟩, ⟨1, 1, [4]⟩, 1⟩

/-- A concrete `1-1-1` network with zero weights and learning rate `1`. -/
def netZero : Network := ⟨1, 1, 1, ⟨1, 1, [0]⟩, ⟨1, 1, [0]⟩, 1⟩

/-- A heap holding the two weight matrices of `netZero`. -/
def heapZero : Heap := [⟨1, 1, [0]⟩, ⟨1, 1, [0]⟩]

/-- The struct referring to the matrices of `heapZero`: a `1-1-1` network with
zero weights and learning rate `1`. -/
def netRefZero : NetRef := ⟨1, 1, 1, 0, 1, 1⟩

/-- A marshalled `2 × 1` matrix — a shape that disagrees with the
configured `1 × 1` weight shapes of `netSmall`. -/
def badStore : MBin := ⟨2, 1, [5, 6]⟩

end

/-! Theorems. -/

section

/-- Reading an address that predates an allocation is unaffected by it. -/
theorem Heap.deref_append (h : Heap) (ms : List GMat) (a : Nat)
    (ha : a < h.length) : Heap.deref (h ++ ms) a = h.deref a := by
  simp only [Heap.deref, List.getD]
  rw [List.get?_append ha]

/-- Reading the address just returned by an allocation yields the value. -/
theorem Heap.deref_alloc (h : Heap) (m : GMat) :
    Heap.deref (h ++ [m]) h.length = m := by
  simp [Heap.deref, List.getD]

/-- C2: saving a network and loading the two streams into any other network
restores both weight matrices exactly, so `Predict` afterwards agrees with
`Predict` of the original network on every input (exactly — in particular
within any floating-point tolerance). -/
theorem save_load_roundtrip (net net2 : Network) (x : List ℝ) :
    Predict
      (load net2 (FileRes.good (save net).1) (FileRes.good (save net).2)).1 x
      = Predict net x := rfl

/-- C3 counterexample: loading a stored matrix whose shape (`2 × 1`)
disagrees with the configured shape of the network (`1 × 1`) does NOT fail —
`load` returns no error — and the in-memory weights are neither fully reset
nor unchanged: `hiddenWeights` is replaced by the `2 × 1` stored matrix. -/
theorem load_shape_mismatch_cex :
    (load netSmall (FileRes.good badStore)
        (FileRes.good (MarshalBinary netSmall.outputWeights))).2 = none
    ∧ (load netSmall (FileRes.good badStore)
        (FileRes.good (MarshalBinary netSmall.outputWeights))).1.hiddenWeights
        ≠ netSmall.hiddenWeights
    ∧ (load netSmall (FileRes.good badStore)
        (FileRes.good (MarshalBinary netSmall.outputWeights))).1.hiddenWeights
        ≠ (⟨0, 0, []⟩ : GMat) := by
  refine ⟨rfl, ?_, ?_⟩ <;>
    simp [load, netSmall, badStore, MarshalBinary, UnmarshalBinary,
      GMat.mk.injEq]

/-- C3 amended: `load` performs no shape validation at all — on two readable
well-formed streams it always succeeds (no error of any kind), replacing
each weight matrix by the stored one and adopting the stored row/column
counts, whether or not they agree with the configured sizes. -/
theorem load_adopts_stored_shape (net : Network) (b1 b2 : MBin) :
    load net (FileRes.good b1) (FileRes.good b2)
      = ({ net with hiddenWeights := ⟨b1.rows, b1.cols, b1.data⟩,
                    outputWeights := ⟨b2.rows, b2.cols, b2.data⟩ }, none) :=
  rfl

/-- C10 counterexample: when the hidden-weights file reads fine but READING
the output-weights file fails, `outputWeights` is not left unchanged — the
`Reset()` before `UnmarshalBinaryFrom` has already emptied it. -/
theorem load_midway_failure_cex :
    (load netSmall (FileRes.good badStore) (FileRes.readFail 7)).2 = some 7
    ∧ (load netSmall (FileRes.good badStore)
        (FileRes.readFail 7)).1.hiddenWeights = UnmarshalBinary badStore
    ∧ (load netSmall (FileRes.good badStore)
        (FileRes.readFail 7)).1.outputWeights ≠ netSmall.outputWeights := by
  refine ⟨rfl, rfl, ?_⟩
  simp [load, netSmall, GMat.mk.injEq]

/-- C10 amended: if `load` reads the hidden-weights file successfully and
then fails on the output-weights file, it returns the error with
`hiddenWeights` already replaced by the stored matrix (an update of only the first half);
`outputWeights` is left unchanged when the OPEN fails, but is left reset
(emptied) when the read fails. -/
theorem load_after_first_file (net : Network) (b1 : MBin) (e : Nat) :
    load net (FileRes.good b1) (FileRes.openFail e)
      = ({ net with hiddenWeights := UnmarshalBinary b1 }, some e)
    ∧ load net (FileRes.good b1) (FileRes.readFail e)
      = ({ net with hiddenWeights := UnmarshalBinary b1,
                    outputWeights := ⟨0, 0, []⟩ }, some e) :=
  ⟨rfl, rfl⟩

/-- The logistic sigmoid lands strictly inside `(0, 1)` on every real. -/
theorem sigmoid_mem01 (r c : Nat) (z : ℝ) :
    0 < sigmoid r c z ∧ sigmoid r c z < 1 := by
  have he : 0 < Real.exp (-1 * z) := Real.exp_pos _
  constructor
  · exact div_pos one_pos (by linarith)
  · show (1 : ℝ) / (1 + Real.exp (-1 * z)) < 1
    rw [div_lt_one (by linarith)]
    linarith

/-- C9: every element of the matrix returned by `Predict` lies strictly
within the open interval `(0, 1)` — each is a sigmoid value. -/
theorem predict_range (net : Network) (x : List ℝ) :
    ∀ v ∈ (Predict net x).data, 0 < v ∧ v < 1 := by
  intro v hv
  simp only [Predict, apply, List.mem_map] at hv
  obtain ⟨k, -, hk⟩ := hv
  exact hk ▸ sigmoid_mem01 _ _ _

/-- C9 witness: the single output cell of the zero `1-1-1` network on input
`[0]` is strictly between `0` and `1`. -/
theorem predict_range_witness :
    0 < (Predict netZero [0]).data.getD 0 0
    ∧ (Predict netZero [0]).data.getD 0 0 < 1 := by
  apply predict_range netZero [0]
  have hlen : 0 < (Predict netZero [0]).data.length := by
    norm_num [Predict, apply, dot, netZero]
  rw [List.getD_eq_getElem _ _ hlen]
  exact List.getElem_mem hlen

/-- Mapping `f` over positions with `getD` equals mapping `f` over the
list. -/
theorem map_range_getD (f : ℝ → ℝ) (l : List ℝ) :
    (List.range l.length).map (fun k => f (l.getD k 0)) = l.map f := by
  induction l with
  | nil => simp
  | cons a t ih =>
    rw [List.length_cons, List.range_succ_eq_map, List.map_cons,
      List.map_map, List.map_cons]
    refine congrArg (f a :: ·) ?_
    rw [← ih]
    exact List.map_congr_left fun k _ => rfl

/-- The gonum-style indexed `apply` of `sigmoid` coincides with the elementwise
sigmoid map of the spec whenever the data list fills the declared shape. -/
theorem apply_sigmoid_eq (m : GMat)
    (hlen : m.data.length = m.rows * m.cols) :
    apply sigmoid m = sigmoidMapSpec m := by
  simp only [apply, sigmoidMapSpec, GMat.mk.injEq, true_and]
  rw [← hlen, ← map_range_getD sigmoidSpec m.data]
  exact List.map_congr_left fun k _ => by
    simp [sigmoid, sigmoidSpec, neg_one_mul]

/-- The data of a matrix product fills its declared shape. -/
theorem dot_data_length (m n : GMat) :
    (dot m n).data.length = m.rows * n.cols := by
  simp [dot, Function.comp_def, List.map_const', List.sum_replicate,
    smul_eq_mul, mul_comm]

/-- C4: `Predict` computes exactly the forward pass of the spec, `output =
sigmoid(outputWeights · sigmoid(hiddenWeights · input))` with `sigmoid(z) =
1 / (1 + e^-z)` elementwise; the result is an `outputSize × 1` matrix (for a
shape-consistent network); and `Predict` mutates nothing on the heap — every
pre-existing address reads the same after the call. -/
theorem predict_matches_spec (net : Network) (x : List ℝ) (h : Heap)
    (netr : NetRef) (a : Nat)
    (hshape : net.outputWeights.rows = net.outputs) (ha : a < h.length) :
    Predict net x = PredictSpec net x
    ∧ (Predict net x).rows = net.outputs
    ∧ (Predict net x).cols = 1
    ∧ Heap.deref (PredictGo h netr x).1 a = h.deref a := by
  refine ⟨?_, hshape, rfl, Heap.deref_append h _ a ha⟩
  unfold Predict PredictSpec
  rw [apply_sigmoid_eq _ (dot_data_length _ _),
    apply_sigmoid_eq _ (dot_data_length _ _)]

/-- C4 witness: instantiation at the zero `1-1-1` network, input `[0]`, and
the zero heap. -/
theorem predict_matches_spec_witness :
    Predict netZero [0] = PredictSpec netZero [0]
    ∧ (Predict netZero [0]).rows = netZero.outputs
    ∧ (Predict netZero [0]).cols = 1
    ∧ Heap.deref (PredictGo heapZero netRefZero [0]).1 0
        = Heap.deref heapZero 0 :=
  predict_matches_spec netZero [0] heapZero netRefZero 0 rfl (by decide)

/-- Reading the fields of a struct is unaffected by allocations made after the
pointers it holds. -/
theorem netRef_read_append (h : Heap) (net : NetRef) (ms : List GMat)
    (h1 : net.hiddenWeights < h.length) (h2 : net.outputWeights < h.length) :
    NetRef.read (h ++ ms) net = NetRef.read h net := by
  unfold NetRef.read
  rw [Heap.deref_append h ms _ h1, Heap.deref_append h ms _ h2]

/-- C5: two successive `Predict` calls with the same struct and the same
input return matrices that are equal bit for bit — the first call changes no
reachable state, so the second reads identical weights and computes the
identical value. -/
theorem predict_deterministic (h : Heap) (net : NetRef) (x : List ℝ)
    (h1 : net.hiddenWeights < h.length) (h2 : net.outputWeights < h.length) :
    Heap.deref (PredictGo (PredictGo h net x).1 net x).1
        (PredictGo (PredictGo h net x).1 net x).2
      = Heap.deref (PredictGo h net x).1 (PredictGo h net x).2 := by
  simp only [PredictGo, Heap.alloc]
  rw [Heap.deref_alloc, Heap.deref_alloc, netRef_read_append h net _ h1 h2]

/-- C5 witness: instantiation at the zero heap and zero `1-1-1` struct. -/
theorem predict_deterministic_witness :
    Heap.deref (PredictGo (PredictGo heapZero netRefZero [0]).1 netRefZero
        [0]).1 (PredictGo (PredictGo heapZero netRefZero [0]).1 netRefZero
        [0]).2
      = Heap.deref (PredictGo heapZero netRefZero [0]).1
        (PredictGo heapZero netRefZero [0]).2 :=
  predict_deterministic heapZero netRefZero [0] (by decide) (by decide)

/-- One-element index range, for concrete evaluations. -/
theorem range_one : List.range 1 = [0] := rfl

/-- After a `Train` call, every pre-existing heap address reads unchanged:
the body only allocates fresh matrices. -/
theorem trainCall_heap (h : Heap) (net : NetRef) (x t : List ℝ) (a : Nat)
    (ha : a < h.length) :
    Heap.deref (TrainCall h net x t).1 a = h.deref a := by
  simp only [TrainCall, TrainGo, Heap.alloc]
  rw [List.append_assoc]
  exact Heap.deref_append h _ a ha

/-- After a `Train` call the struct at the call site is the same struct and its
pointers read the same matrices: the caller-visible network is unchanged. -/
theorem trainCall_caller_view (h : Heap) (net : NetRef) (x t : List ℝ)
    (h1 : net.hiddenWeights < h.length) (h2 : net.outputWeights < h.length) :
    NetRef.read (TrainCall h net x t).1 (TrainCall h net x t).2
      = NetRef.read h net := by
  show NetRef.read (TrainCall h net x t).1 net = NetRef.read h net
  unfold NetRef.read
  rw [trainCall_heap h net x t _ h1, trainCall_heap h net x t _ h2]

/-- C1 (code bug): `Train` has a value receiver, so the weight updates it
computes are bound to a discarded copy of the struct — after `net.Train(...)`
the struct at the call site and both matrices it points to are bit-for-bit
unchanged, while the specified update (here at the zero `1-1-1` network with
rate `1`, input `[0]`, target `[1]`) differs from the old weights. -/
theorem train_mutation_invisible :
    (TrainCall heapZero netRefZero [0] [1]).2 = netRefZero
    ∧ Heap.deref (TrainCall heapZero netRefZero [0] [1]).1
        netRefZero.hiddenWeights = Heap.deref heapZero netRefZero.hiddenWeights
    ∧ Heap.deref (TrainCall heapZero netRefZero [0] [1]).1
        netRefZero.outputWeights = Heap.deref heapZero netRefZero.outputWeights
    ∧ (TrainSpec (NetRef.read heapZero netRefZero) [0] [1]).outputWeights
        ≠ Heap.deref heapZero netRefZero.outputWeights := by
  refine ⟨rfl, rfl, rfl, fun hcontra => ?_⟩
  have hval : (TrainSpec (NetRef.read heapZero netRefZero) [0]
      [1]).outputWeights.data = [(1 : ℝ) / 16] := by
    have h0 : NetRef.read heapZero netRefZero = netZero := rfl
    rw [h0]
    norm_num [TrainSpec, sigmoidMapSpec, sigmoidSpec, dot, multiply,
      subtract, add, scale, transpose, GMat.At, netZero, Real.exp_zero,
      range_one, List.flatMap_cons, List.flatMap_nil]
  rw [hcontra] at hval
  norm_num [Heap.deref, heapZero, netRefZero] at hval

/-- C6 counterexample: a shape-consistent network stops being
shape-consistent after `load` reads a stored matrix of a different shape —
`load` is a subsequent operation that does not preserve the invariant. -/
theorem shape_not_preserved_cex :
    ShapeOK netSmall
    ∧ ¬ ShapeOK (load netSmall (FileRes.good badStore)
        (FileRes.good (MarshalBinary netSmall.outputWeights))).1 := by
  refine ⟨⟨rfl, rfl, rfl, rfl⟩, ?_⟩
  simp [ShapeOK, load, netSmall, badStore, MarshalBinary, UnmarshalBinary]

/-- C6 amended: construction yields `hiddenSize × inputSize` and
`outputSize × hiddenSize` weight shapes, and the consistency is preserved by
`Train` calls (which leave the visible network unchanged) and by `load`
when the stored shapes agree with the configured sizes — but not by `load`
on differently-shaped stores. -/
theorem shape_invariants_amended :
    (∀ (i hd o : Nat) (rate : ℝ) (src : Nat → ℝ),
      ShapeOK (NewNetwork i hd o rate src))
    ∧ (∀ (h : Heap) (net : NetRef) (x t : List ℝ),
        net.hiddenWeights < h.length → net.outputWeights < h.length →
        ShapeOK (NetRef.read h net) →
        ShapeOK (NetRef.read (TrainCall h net x t).1 (TrainCall h net x t).2))
    ∧ (∀ (net : Network) (b1 b2 : MBin), b1.rows = net.hiddens →
        b1.cols = net.inputs → b2.rows = net.outputs →
        b2.cols = net.hiddens →
        ShapeOK (load net (FileRes.good b1) (FileRes.good b2)).1) := by
  refine ⟨fun i hd o rate src => ⟨rfl, rfl, rfl, rfl⟩, ?_, ?_⟩
  · intro h net x t h1 h2 hsh
    rwa [trainCall_caller_view h net x t h1 h2]
  · intro net b1 b2 e1 e2 e3 e4
    exact ⟨e1, e2, e3, e4⟩

/-- C6 amended witness: the three parts at concrete instances. -/
theorem shape_invariants_amended_witness :
    ShapeOK (NewNetwork 2 3 2 (1 / 2) fun _ => 0)
    ∧ ShapeOK (NetRef.read (TrainCall heapZero netRefZero [0] [1]).1
        (TrainCall heapZero netRefZero [0] [1]).2)
    ∧ ShapeOK (load netSmall
        (FileRes.good (MarshalBinary netSmall.hiddenWeights))
        (FileRes.good (MarshalBinary netSmall.outputWeights))).1 :=
  ⟨shape_invariants_amended.1 2 3 2 (1 / 2) fun _ => 0,
    shape_invariants_amended.2.1 heapZero netRefZero [0] [1] (by decide)
      (by decide) ⟨rfl, rfl, rfl, rfl⟩,
    shape_invariants_amended.2.2 netSmall _ _ rfl rfl rfl rfl⟩

/-- A draw from `Uniform{Min: -1/sqrt v, Max: 1/sqrt v}` with source value
in `[0, 1)` stays within the closed interval of its bounds. -/
theorem uniformRand_bounds (v u : ℝ) (hu0 : 0 ≤ u) (hu1 : u < 1) :
    -1 / Real.sqrt v ≤ uniformRand (-1 / Real.sqrt v) (1 / Real.sqrt v) u
    ∧ uniformRand (-1 / Real.sqrt v) (1 / Real.sqrt v) u ≤ 1 / Real.sqrt v := by
  have hs : 0 ≤ Real.sqrt v := Real.sqrt_nonneg v
  have hwidth : 0 ≤ 1 / Real.sqrt v - -1 / Real.sqrt v := by
    have : 1 / Real.sqrt v - -1 / Real.sqrt v = 2 / Real.sqrt v := by ring
    rw [this]
    positivity
  have hlo := mul_nonneg hu0 hwidth
  have hhi := mul_le_of_le_one_left hwidth hu1.le
  unfold uniformRand
  constructor <;> linarith

/-- C7: for positive fan-in, every cell the initializer puts into
`hiddenWeights` lies in `[-1/sqrt(inputSize), 1/sqrt(inputSize)]` and every
cell of `outputWeights` lies in `[-1/sqrt(hiddenSize), 1/sqrt(hiddenSize)]`,
for every state of the random source (whose float64 draws lie in `[0,1)`). -/
theorem init_range (i hd o : Nat) (rate : ℝ) (src : Nat → ℝ)
    (hi : 0 < i) (hh : 0 < hd) (hsrc : ∀ n, 0 ≤ src n ∧ src n < 1) :
    (∀ c ∈ (NewNetwork i hd o rate src).hiddenWeights.data,
      -1 / Real.sqrt (i : ℝ) ≤ c ∧ c ≤ 1 / Real.sqrt (i : ℝ))
    ∧ (∀ c ∈ (NewNetwork i hd o rate src).outputWeights.data,
      -1 / Real.sqrt (hd : ℝ) ≤ c ∧ c ≤ 1 / Real.sqrt (hd : ℝ)) := by
  constructor <;>
  · intro c hc
    simp only [NewNetwork, randomArray, List.mem_map] at hc
    obtain ⟨k, -, hk⟩ := hc
    exact hk ▸ uniformRand_bounds _ _ (hsrc _).1 (hsrc _).2

/-- C7 witness: with fan-in `1` and the all-zero source, the first hidden
cell is within `[-1/sqrt 1, 1/sqrt 1]`. -/
theorem init_range_witness :
    -1 / Real.sqrt ((1 : Nat) : ℝ)
      ≤ (NewNetwork 1 1 1 1 fun _ => 0).hiddenWeights.data.getD 0 0
    ∧ (NewNetwork 1 1 1 1 fun _ => 0).hiddenWeights.data.getD 0 0
      ≤ 1 / Real.sqrt ((1 : Nat) : ℝ) := by
  apply (init_range 1 1 1 1 (fun _ => 0) one_pos one_pos
    fun n => ⟨le_rfl, one_pos⟩).1
  have hlen : 0 < (NewNetwork 1 1 1 1 fun _ => 0).hiddenWeights.data.length := by
    norm_num [NewNetwork, randomArray]
  rw [List.getD_eq_getElem _ _ hlen]
  exact List.getElem_mem hlen

/-- C8 (code bug): the Driver scaling `(raw / 0.99 * 255.0) + 0.01` does
NOT map raw pixel values into `[0.01, 1.0]` — at `raw = 255` it yields
`65681.8282...`, far above `1` (the reference normalization divides by 255
and multiplies by 0.99; the constants are swapped).  The one-hot target
construction, by contrast, is as claimed. -/
theorem mnist_scale_out_of_range :
    mnistScale 255 = 650250099 / 9900
    ∧ 1 < mnistScale 255
    ∧ mnistTargets 2 1 = [0.01, 0.99]
    ∧ mnistTargets 2 0 = [0.99, 0.01] := by
  refine ⟨by norm_num [mnistScale], by norm_num [mnistScale], rfl, rfl⟩

end

end NNN
